import Mathlib

/-!
Shallow embedding of the transport abstraction layer of libjaylink
(src/libjaylink/transport.c) and proofs about its framing, buffering and
retry behaviour.

Machine integers: all the C quantities involved (uint16_t lengths and
cursors, the 2048-byte buffer) stay far below their overflow bounds on
every path the functions below model (every subtraction is guarded by the
corresponding comparison in the C code), so they are modelled as Nat.

The USB backend is modelled at two granularities, matching the two layers
of the C code.  For the framing functions transport_write / transport_read,
a backend interaction is one usb_send / usb_recv call: transport_write
returns the list of usb_send payloads it issues, and transport_read
consumes an oracle list of usb_recv outcomes together with the byte
stream produced by the device.  The usb_send / usb_recv retry machinery itself is modelled
separately over an oracle of libusb_bulk_transfer attempt outcomes.
-/

namespace Jaylink

/-- Error codes of libjaylink.h (JAYLINK_OK is the Except.ok case). -/
inductive JError where
  | ERR
  | ERR_MALLOC
  | ERR_ARG
  | ERR_TIMEOUT
  deriving DecidableEq, Repr

/-- Chunk size in bytes in which data is transferred (transport.c). -/
def CHUNK_SIZE : Nat := 2048

/-- Buffer size in bytes (transport.c: equal to CHUNK_SIZE). -/
def BUFFER_SIZE : Nat := CHUNK_SIZE

/-- Number of consecutive timeouts before an USB transfer is treated as
timed out (transport.c). -/
def NUM_TIMEOUTS : Nat := 2

/-- The framing state of struct jaylink_device_handle that transport.c
reads and writes: the scratch buffer and the per-direction cursors. -/
structure DevState where
  buffer : List Nat
  read_length : Nat
  bytes_available : Nat
  read_pos : Nat
  write_length : Nat
  write_pos : Nat
  deriving DecidableEq, Repr

/-- State established by initialize_handle: zeroed cursors, a scratch
buffer of BUFFER_SIZE bytes. -/
def initState : DevState :=
  { buffer := List.replicate BUFFER_SIZE 0
    read_length := 0
    bytes_available := 0
    read_pos := 0
    write_length := 0
    write_pos := 0 }

/-- Models memcpy(buf + pos, data, data.length) into a fixed buffer. -/
def listWrite (buf : List Nat) (pos : Nat) (data : List Nat) : List Nat :=
  buf.take pos ++ data ++ buf.drop (pos + data.length)

/-- transport_start_write: reject length 0, otherwise overwrite the write
framing state (the stale-state warnings are log-only). -/
def transport_start_write (st : DevState) (length : Nat) :
    Except JError DevState :=
  if length = 0 then .error .ERR_ARG
  else .ok { st with write_length := length, write_pos := 0 }

/-- transport_start_read: reject length 0, otherwise overwrite the read
framing state (the stale-state warnings are log-only). -/
def transport_start_read (st : DevState) (length : Nat) :
    Except JError DevState :=
  if length = 0 then .error .ERR_ARG
  else .ok { st with read_length := length, bytes_available := 0, read_pos := 0 }

/-- transport_start_write_read: reject a zero length on either side,
otherwise overwrite both framing states. -/
def transport_start_write_read (st : DevState)
    (write_length read_length : Nat) : Except JError DevState :=
  if read_length = 0 ∨ write_length = 0 then .error .ERR_ARG
  else .ok { st with
    write_length := write_length
    write_pos := 0
    read_length := read_length
    bytes_available := 0
    read_pos := 0 }

/-- The fill_bytes computation of the completing transport_write
(transport.c lines 560-565): num_chunks is the number of CHUNK_SIZE
chunks covering the staged bytes, and fill_bytes the distance from the
staged bytes to that chunk boundary. -/
def fillBytes (pos : Nat) : Nat :=
  (pos / CHUNK_SIZE + if pos % CHUNK_SIZE ≠ 0 then 1 else 0) * CHUNK_SIZE - pos

/-- transport_write.  The result carries the new state together with the
list of usb_send payloads issued, in call order; usb_send itself is
modelled at this layer as succeeding (its retry behaviour over bulk
transfer attempts is usb_send_loop below). -/
def transport_write (st : DevState) (data : List Nat) :
    Except JError (DevState × List (List Nat)) :=
  let length := data.length
  if length > st.write_length then .error .ERR_ARG
  else if length < st.write_length then
    -- store data in the buffer; the operation is not completed yet
    if st.write_pos + length > BUFFER_SIZE then .error .ERR_ARG
    else .ok ({ st with
        buffer := listWrite st.buffer st.write_pos data
        write_length := st.write_length - length
        write_pos := st.write_pos + length }, [])
  else
    -- length = write_length: the write operation is performed
    if st.write_pos = 0 then
      .ok ({ st with write_length := 0 }, [data])
    else
      let tmp := min length (fillBytes st.write_pos)
      let buf' := listWrite st.buffer st.write_pos (data.take tmp)
      let first := buf'.take (st.write_pos + tmp)
      let rest := data.drop tmp
      .ok ({ st with buffer := buf', write_length := 0, write_pos := 0 },
        first :: (if rest.length = 0 then [] else [rest]))

/-- The while loop of transport_read.  `stream` is the byte stream the
device produces for this operation; `results` is the oracle of usb_recv
outcomes, each .ok c delivering the next c stream bytes.  Returns none if
the oracle is exhausted while bytes are still needed. -/
def read_loop : DevState → Nat → List Nat → List (Except JError Nat) →
    Option (Except JError
      (List Nat × DevState × List Nat × List (Except JError Nat)))
  | st, len, stream, results =>
    if len = 0 then some (.ok ([], st, stream, results))
    else
      match results with
      | [] => none
      | .error e :: _ => some (.error e)
      | .ok c :: rs =>
        -- the device produced the next c bytes of the stream
        if c > st.read_length then some (.error .ERR)
        else if len < CHUNK_SIZE then
          -- receive into the scratch buffer, copy out min c len bytes,
          -- retain any surplus as buffered bytes
          let received := stream.take c
          let buf' := listWrite st.buffer 0 received
          let tmp := min c len
          let st' :=
            if c > len then
              { st with
                buffer := buf'
                bytes_available := c - tmp
                read_pos := tmp
                read_length := st.read_length - c }
            else
              { st with buffer := buf', read_length := st.read_length - c }
          match read_loop st' (len - tmp) (stream.drop c) rs with
          | some (.ok (out, stF, sF, rF)) =>
            some (.ok (buf'.take tmp ++ out, stF, sF, rF))
          | other => other
        else
          -- receive directly into the caller's buffer
          let received := stream.take c
          let st' := { st with read_length := st.read_length - c }
          match read_loop st' (len - c) (stream.drop c) rs with
          | some (.ok (out, stF, sF, rF)) =>
            some (.ok (received ++ out, stF, sF, rF))
          | other => other

/-- transport_read.  Returns the bytes delivered to the caller,
the new state, and the remaining stream / oracle. -/
def transport_read (st : DevState) (len : Nat) (stream : List Nat)
    (results : List (Except JError Nat)) :
    Option (Except JError
      (List Nat × DevState × List Nat × List (Except JError Nat))) :=
  if len > st.read_length + st.bytes_available then some (.error .ERR_ARG)
  else if len ≤ st.bytes_available then
    -- served entirely from the scratch buffer
    some (.ok ((st.buffer.drop st.read_pos).take len,
      { st with
        bytes_available := st.bytes_available - len
        read_pos := st.read_pos + len }, stream, results))
  else
    -- drain the buffered bytes first, then receive in the loop
    let pre := (st.buffer.drop st.read_pos).take st.bytes_available
    let st1 :=
      if st.bytes_available ≠ 0 then
        { st with bytes_available := 0, read_pos := 0 }
      else st
    match read_loop st1 (len - st.bytes_available) stream results with
    | some (.ok (out, stF, sF, rF)) => some (.ok (pre ++ out, stF, sF, rF))
    | other => other

/-- Outcome of one libusb_bulk_transfer attempt: success, timeout or other
error, with the byte count the attempt transferred. -/
inductive BulkRes where
  | ok (transferred : Nat)
  | timeout (transferred : Nat)
  | error
  deriving DecidableEq, Repr

/-- The while loop of usb_recv over an oracle of bulk transfer attempts:
loop while tries remain and nothing was transferred; a timeout costs a
try, a successful zero-byte transfer does not.  Afterwards, any nonzero
transferred count is a success.  Returns none if the oracle is exhausted
while the loop would continue. -/
def usb_recv_loop : Nat → Nat → List BulkRes → Option (Except JError Nat)
  | 0, transferred, _ =>
    some (if transferred ≠ 0 then .ok transferred else .error .ERR_TIMEOUT)
  | tries + 1, transferred, attempts =>
    if transferred ≠ 0 then some (.ok transferred)
    else
      match attempts with
      | [] => none
      | .ok t :: rest => usb_recv_loop (tries + 1) t rest
      | .timeout t :: rest => usb_recv_loop tries t rest
      | .error :: _ => some (.error .ERR)

/-- usb_recv: NUM_TIMEOUTS tries, nothing transferred yet. -/
def usb_recv (attempts : List BulkRes) : Option (Except JError Nat) :=
  usb_recv_loop NUM_TIMEOUTS 0 attempts

/-- The while loop of usb_send over an oracle of bulk transfer attempts:
loop while tries and unsent bytes remain; success resets the tries,
a timeout costs a try, both advance by the transferred count.  Returns
none if the oracle is exhausted while the loop would continue. -/
def usb_send_loop : Nat → Nat → List BulkRes → Option (Except JError Unit)
  | 0, length, _ =>
    some (if length = 0 then .ok () else .error .ERR_TIMEOUT)
  | tries + 1, length, attempts =>
    if length = 0 then some (.ok ())
    else
      match attempts with
      | [] => none
      | .ok t :: rest => usb_send_loop NUM_TIMEOUTS (length - t) rest
      | .timeout t :: rest => usb_send_loop tries (length - t) rest
      | .error :: _ => some (.error .ERR)

/-- usb_send: NUM_TIMEOUTS tries for the whole length. -/
def usb_send (length : Nat) (attempts : List BulkRes) :
    Option (Except JError Unit) :=
  usb_send_loop NUM_TIMEOUTS length attempts

/-- Bytes staged in the scratch buffer for the pending write operation. -/
def staged (st : DevState) : List Nat :=
  st.buffer.take st.write_pos

/-- Bytes received from the device but not yet delivered to the caller. -/
def bufSlice (st : DevState) : List Nat :=
  (st.buffer.drop st.read_pos).take st.bytes_available

/-- Run a sequence of transport_write calls, collecting the usb_send
payloads in call order. -/
def runWrites : DevState → List (List Nat) →
    Except JError (DevState × List (List Nat))
  | st, [] => .ok (st, [])
  | st, d :: ds =>
    match transport_write st d with
    | .error e => .error e
    | .ok (st', s1) =>
      match runWrites st' ds with
      | .error e => .error e
      | .ok (stF, s2) => .ok (stF, s1 ++ s2)

/-- Run a sequence of transport_read calls, collecting the outputs in call
order. -/
def runReads : DevState → List Nat → List Nat → List (Except JError Nat) →
    Option (Except JError
      (List (List Nat) × DevState × List Nat × List (Except JError Nat)))
  | st, [], stream, results => some (.ok ([], st, stream, results))
  | st, len :: lens, stream, results =>
    match transport_read st len stream results with
    | some (.ok (out, st', s', r')) =>
      match runReads st' lens s' r' with
      | some (.ok (outs, stF, sF, rF)) => some (.ok (out :: outs, stF, sF, rF))
      | other => other
    | some (.error e) => some (.error e)
    | none => none

/-- States reachable from the freshly opened handle via the operations
named in the buffer-capacity claim. -/
inductive Reach : DevState → Prop where
  | init : Reach initState
  | start_write : ∀ {st st' : DevState} {n : Nat}, Reach st →
      transport_start_write st n = .ok st' → Reach st'
  | start_write_read : ∀ {st st' : DevState} {wl rl : Nat}, Reach st →
      transport_start_write_read st wl rl = .ok st' → Reach st'
  | write : ∀ {st st' : DevState} {data : List Nat} {sends : List (List Nat)},
      Reach st → transport_write st data = .ok (st', sends) → Reach st'

/-- C5: an oversized request is rejected with JAYLINK_ERR_ARG before any
backend interaction: transport_write with length exceeding write_length
fails (the pure error result carries no new state and an empty send
trace), and transport_read with length exceeding
read_length + bytes_available fails identically for every backend stream
and oracle (hence touches neither). -/
theorem c5_oversized_request_rejected (st : DevState) (data : List Nat)
    (len : Nat) (stream : List Nat) (results : List (Except JError Nat)) :
    (data.length > st.write_length →
      transport_write st data = .error .ERR_ARG) ∧
    (len > st.read_length + st.bytes_available →
      transport_read st len stream results = some (.error .ERR_ARG)) := by
  constructor
  · intro h
    simp only [transport_write, if_pos h]
  · intro h
    simp only [transport_read, if_pos h]

/-- C5 witness: concrete oversized write and read requests fail. -/
theorem c5_witness :
    (([0, 0] : List Nat).length > initState.write_length →
      transport_write initState [0, 0] = .error .ERR_ARG) ∧
    (1 > initState.read_length + initState.bytes_available →
      transport_read initState 1 [7] [.ok 1] = some (.error .ERR_ARG)) :=
  c5_oversized_request_rejected initState [0, 0] 1 [7] [.ok 1]

/-- A framing state with both a stale write and a stale read pending,
used to witness the stale-state overwrite behaviour. -/
def dirtyState : DevState :=
  { initState with
    write_length := 9
    write_pos := 7
    read_length := 2
    bytes_available := 1
    read_pos := 1 }

/-- C8: starting any operation from any prior framing state, however
stale, succeeds and overwrites the stale state with the new lengths and
zeroed cursors (the stale-state diagnosis in the C code is log-only). -/
theorem c8_start_overwrites_stale_state (st : DevState) (n wl rl : Nat)
    (hn : n ≠ 0) (hw : wl ≠ 0) (hr : rl ≠ 0) :
    transport_start_write st n =
      .ok { st with write_length := n, write_pos := 0 } ∧
    transport_start_read st n =
      .ok { st with read_length := n, bytes_available := 0, read_pos := 0 } ∧
    transport_start_write_read st wl rl =
      .ok { st with
        write_length := wl
        write_pos := 0
        read_length := rl
        bytes_available := 0
        read_pos := 0 } := by
  refine ⟨?_, ?_, ?_⟩
  · simp only [transport_start_write, if_neg hn]
  · simp only [transport_start_read, if_neg hn]
  · have : ¬(rl = 0 ∨ wl = 0) := by
      intro h
      rcases h with h | h
      · exact hr h
      · exact hw h
    simp only [transport_start_write_read, if_neg this]

/-- C8 witness: starting operations from a dirty state (stale write and
read both incomplete) succeeds and resets the framing. -/
theorem c8_witness :
    (3 : Nat) ≠ 0 ∧ (4 : Nat) ≠ 0 ∧ (5 : Nat) ≠ 0 ∧
    (transport_start_write dirtyState 3 =
      .ok { dirtyState with write_length := 3, write_pos := 0 } ∧
    transport_start_read dirtyState 3 =
      .ok { dirtyState with read_length := 3, bytes_available := 0, read_pos := 0 } ∧
    transport_start_write_read dirtyState 4 5 =
      .ok { dirtyState with
        write_length := 4
        write_pos := 0
        read_length := 5
        bytes_available := 0
        read_pos := 0 }) :=
  ⟨by decide, by decide, by decide,
    c8_start_overwrites_stale_state dirtyState 3 4 5
      (by decide) (by decide) (by decide)⟩

/-- C9: a transport_read request no larger than the buffered byte count is
served entirely from the scratch buffer: the output is the next `len`
buffered bytes, bytes_available shrinks and read_pos advances by exactly
`len`, the backend stream and oracle are untouched, and every other field
of the state is unchanged. -/
theorem c9_read_served_from_buffer (st : DevState) (len : Nat)
    (stream : List Nat) (results : List (Except JError Nat))
    (h : len ≤ st.bytes_available) :
    transport_read st len stream results =
      some (.ok ((st.buffer.drop st.read_pos).take len,
        { st with
          bytes_available := st.bytes_available - len
          read_pos := st.read_pos + len }, stream, results)) := by
  have h1 : ¬(len > st.read_length + st.bytes_available) := by omega
  simp only [transport_read, if_neg h1, if_pos h]

/-- C9 witness: a 2-byte read with 3 buffered bytes is served from the
buffer. -/
theorem c9_witness :
    (2 : Nat) ≤ ({ initState with read_length := 4, bytes_available := 3 } :
      DevState).bytes_available ∧
    transport_read { initState with read_length := 4, bytes_available := 3 }
        2 [9] [.ok 1] =
      some (.ok ((({ initState with read_length := 4, bytes_available := 3 } :
          DevState).buffer.drop
          ({ initState with read_length := 4, bytes_available := 3 } :
            DevState).read_pos).take 2,
        { initState with read_length := 4, bytes_available := 1, read_pos := 2 },
        [9], [.ok 1])) :=
  ⟨by decide, c9_read_served_from_buffer
    { initState with read_length := 4, bytes_available := 3 }
    2 [9] [.ok 1] (by decide)⟩

/-- C10: a buffering transport_write (length strictly below the remaining
write_length) whose bytes would overflow the scratch buffer fails with
JAYLINK_ERR_ARG (no state change, no backend I/O in the pure model), even
though transport_start_write accepts any nonzero total length with no
capacity check. -/
theorem c10_buffering_overflow_rejected (st : DevState) (data : List Nat)
    (h1 : data.length < st.write_length)
    (h2 : st.write_pos + data.length > BUFFER_SIZE) :
    transport_write st data = .error .ERR_ARG ∧
    (∀ n : Nat, n ≠ 0 → transport_start_write st n =
      .ok { st with write_length := n, write_pos := 0 }) := by
  constructor
  · have h0 : ¬(data.length > st.write_length) := by omega
    simp only [transport_write, if_neg h0, if_pos h1, if_pos h2]
  · intro n hn
    simp only [transport_start_write, if_neg hn]

/-- C10 witness: with 2048 bytes already staged and 2 more expected,
writing 1 byte overflows and is rejected; start_write accepted the
oversized 2050-byte operation. -/
theorem c10_witness :
    ([0] : List Nat).length <
      ({ initState with write_length := 2, write_pos := BUFFER_SIZE } :
        DevState).write_length ∧
    ({ initState with write_length := 2, write_pos := BUFFER_SIZE } :
        DevState).write_pos + ([0] : List Nat).length > BUFFER_SIZE ∧
    (transport_write
        { initState with write_length := 2, write_pos := BUFFER_SIZE } [0] =
      .error .ERR_ARG ∧
    (∀ n : Nat, n ≠ 0 → transport_start_write
        { initState with write_length := 2, write_pos := BUFFER_SIZE } n =
      .ok { initState with write_length := n, write_pos := 0 })) :=
  ⟨by decide, by decide,
    c10_buffering_overflow_rejected _ [0] (by decide) (by decide)⟩

/-- C7: if, during a transport_read that has to go to the device, a single
physical receive yields more bytes than the bytes still expected from the
device for this operation, the call fails with the non-retryable
JAYLINK_ERR; the error is returned for every remainder of the oracle, so
no further receive is attempted above the backend layer. -/
theorem c7_overlong_receive_is_fatal (st : DevState) (len c : Nat)
    (stream : List Nat) (rest : List (Except JError Nat))
    (hvalid : len ≤ st.read_length + st.bytes_available)
    (hloop : len > st.bytes_available)
    (hover : c > st.read_length) :
    transport_read st len stream (.ok c :: rest) = some (.error .ERR) := by
  have h1 : ¬(len > st.read_length + st.bytes_available) := by omega
  have h2 : ¬(len ≤ st.bytes_available) := by omega
  have h3 : ¬(len - st.bytes_available = 0) := by omega
  simp only [transport_read, if_neg h1, if_neg h2]
  by_cases hb : st.bytes_available ≠ 0 <;>
    simp [read_loop, hb, h3, hover]

/-- C7 witness: a 5-byte read against a device that hands back 7 bytes in
one receive fails with JAYLINK_ERR. -/
theorem c7_witness :
    (5 : Nat) ≤ 5 + 0 ∧ (5 : Nat) > 0 ∧ (7 : Nat) > 5 ∧
    transport_read { initState with read_length := 5 } 5
      [10, 11, 12, 13, 14, 15, 16] [.ok 7] = some (.error .ERR) :=
  ⟨by decide, by decide, by decide,
    c7_overlong_receive_is_fatal _ 5 7 [10, 11, 12, 13, 14, 15, 16] []
      (by decide) (by decide) (by decide)⟩

theorem usb_recv_loop_zero (transferred : Nat) (attempts : List BulkRes) :
    usb_recv_loop 0 transferred attempts =
      some (if transferred ≠ 0 then .ok transferred
        else .error .ERR_TIMEOUT) := by
  rw [usb_recv_loop.eq_def]

theorem usb_recv_loop_pos (tries t : Nat) (attempts : List BulkRes)
    (h : t ≠ 0) :
    usb_recv_loop (tries + 1) t attempts = some (.ok t) := by
  rw [usb_recv_loop.eq_def]
  simp [h]

theorem usb_recv_loop_timeout (tries t : Nat) (rest : List BulkRes) :
    usb_recv_loop (tries + 1) 0 (.timeout t :: rest) =
      usb_recv_loop tries t rest := by
  rw [usb_recv_loop.eq_def]
  simp

theorem usb_recv_loop_ok (tries t : Nat) (rest : List BulkRes) :
    usb_recv_loop (tries + 1) 0 (.ok t :: rest) =
      usb_recv_loop (tries + 1) t rest := by
  rw [usb_recv_loop.eq_def]
  simp

theorem usb_recv_loop_error (tries : Nat) (rest : List BulkRes) :
    usb_recv_loop (tries + 1) 0 (.error :: rest) = some (.error .ERR) := by
  rw [usb_recv_loop.eq_def]
  simp

theorem usb_send_loop_zero (len : Nat) (attempts : List BulkRes) :
    usb_send_loop 0 len attempts =
      some (if len = 0 then .ok () else .error .ERR_TIMEOUT) := by
  rw [usb_send_loop.eq_def]

theorem usb_send_loop_done (tries : Nat) (attempts : List BulkRes) :
    usb_send_loop (tries + 1) 0 attempts = some (.ok ()) := by
  rw [usb_send_loop.eq_def]
  simp

theorem usb_send_loop_ok (tries len t : Nat) (rest : List BulkRes)
    (h : len ≠ 0) :
    usb_send_loop (tries + 1) len (.ok t :: rest) =
      usb_send_loop NUM_TIMEOUTS (len - t) rest := by
  rw [usb_send_loop.eq_def]
  simp [h]

theorem usb_send_loop_timeout (tries len t : Nat) (rest : List BulkRes)
    (h : len ≠ 0) :
    usb_send_loop (tries + 1) len (.timeout t :: rest) =
      usb_send_loop tries (len - t) rest := by
  rw [usb_send_loop.eq_def]
  simp [h]

theorem usb_send_loop_error (tries len : Nat) (rest : List BulkRes)
    (h : len ≠ 0) :
    usb_send_loop (tries + 1) len (.error :: rest) =
      some (.error .ERR) := by
  rw [usb_send_loop.eq_def]
  simp [h]

/-- C6 counterexample: transport_start_write accepts a 3000-byte
operation from the fresh state, and the resulting state has
write_pos + write_length = 3000 > BUFFER_SIZE, refuting the claimed
invariant at a directly reachable state. -/
theorem c6_counterexample :
    transport_start_write initState 3000 =
      .ok { initState with write_length := 3000, write_pos := 0 } ∧
    BUFFER_SIZE <
      ({ initState with write_length := 3000, write_pos := 0 } :
        DevState).write_pos +
      ({ initState with write_length := 3000, write_pos := 0 } :
        DevState).write_length := by
  constructor
  · rfl
  · decide

/-- C6 amended: along every state reachable via transport_start_write,
transport_start_write_read and transport_write, the staged byte count
write_pos never exceeds the scratch buffer capacity BUFFER_SIZE; the sum
write_pos + write_length is not so bounded (operations longer than the
buffer are legal and flushed in parts). -/
theorem c6_amended_staged_bytes_bounded (st : DevState) (h : Reach st) :
    st.write_pos ≤ BUFFER_SIZE := by
  induction h with
  | init =>
    show initState.write_pos ≤ BUFFER_SIZE
    simp [initState]
  | start_write hR heq ih =>
    rename_i st st' n
    simp only [transport_start_write] at heq
    split at heq
    · cases heq
    · cases heq
      simp
  | start_write_read hR heq ih =>
    rename_i st st' wl rl
    simp only [transport_start_write_read] at heq
    split at heq
    · cases heq
    · cases heq
      simp
  | write hR heq ih =>
    rename_i st st' data sends
    simp only [transport_write] at heq
    split at heq
    · cases heq
    · split at heq
      · split at heq
        · cases heq
        · cases heq
          simp only []
          omega
      · split at heq
        · cases heq
          simpa using ih
        · cases heq
          simp

/-- C6 amended witness: the bound applied at the concrete reachable state
after start_write(3000) from the fresh handle. -/
theorem c6_amended_witness :
    Reach { initState with write_length := 3000, write_pos := 0 } ∧
    ({ initState with write_length := 3000, write_pos := 0 } :
      DevState).write_pos ≤ BUFFER_SIZE :=
  have heq : transport_start_write initState 3000 =
      .ok { initState with write_length := 3000, write_pos := 0 } := rfl
  have hr : Reach { initState with write_length := 3000, write_pos := 0 } :=
    Reach.start_write Reach.init heq
  ⟨hr, c6_amended_staged_bytes_bounded _ hr⟩

/-- C4 counterexample: for usb_send, a timeout attempt that transferred
1 of 3 bytes is not treated as success with a partial count — the
implementation keeps retrying the remainder and, after a second timeout,
returns JAYLINK_ERR_TIMEOUT. -/
theorem c4_counterexample :
    usb_send 3 [.timeout 1, .timeout 0] = some (.error .ERR_TIMEOUT) ∧
    usb_send 3 [.timeout 1, .timeout 0] ≠ some (.ok ()) := by
  constructor
  · rfl
  · simp [usb_send, usb_send_loop, NUM_TIMEOUTS]

/-- C4 amended: the claimed policy holds in full for usb_recv (two
consecutive zero-byte timeouts yield JAYLINK_ERR_TIMEOUT; a timeout that
transferred at least one byte is success with the partial count; a
non-timeout error aborts immediately with JAYLINK_ERR).  For usb_send,
two consecutive zero-progress timeouts yield JAYLINK_ERR_TIMEOUT and a
non-timeout error aborts immediately, but a timeout with partial progress
is not a success: it consumes one retry and the remaining bytes are
retried, while a successful attempt resets the retry budget; usb_send
returns no partial count, only success once everything is sent. -/
theorem c4_amended_retry_policy (rest : List BulkRes) (t len : Nat)
    (ht : 1 ≤ t) (hlen : 1 ≤ len) :
    usb_recv (.timeout 0 :: .timeout 0 :: rest) = some (.error .ERR_TIMEOUT) ∧
    usb_recv (.timeout t :: rest) = some (.ok t) ∧
    usb_recv (.timeout 0 :: .timeout t :: rest) = some (.ok t) ∧
    usb_recv (.error :: rest) = some (.error .ERR) ∧
    usb_send len (.timeout 0 :: .timeout 0 :: rest) =
      some (.error .ERR_TIMEOUT) ∧
    usb_send len (.error :: rest) = some (.error .ERR) ∧
    (t < len → usb_send len (.timeout t :: rest) =
      usb_send_loop (NUM_TIMEOUTS - 1) (len - t) rest) ∧
    (t < len → usb_send len (.ok t :: rest) =
      usb_send_loop NUM_TIMEOUTS (len - t) rest) := by
  have ht' : t ≠ 0 := by omega
  have hlen' : len ≠ 0 := by omega
  have h2 : NUM_TIMEOUTS = 1 + 1 := rfl
  have h1 : (1 : Nat) = 0 + 1 := rfl
  refine ⟨?_, ?_, ?_, ?_, ?_, ?_, fun _ => ?_, fun _ => ?_⟩
  · rw [usb_recv, h2, usb_recv_loop_timeout, h1, usb_recv_loop_timeout,
      usb_recv_loop_zero]
    simp
  · rw [usb_recv, h2, usb_recv_loop_timeout, h1, usb_recv_loop_pos _ _ _ ht']
  · rw [usb_recv, h2, usb_recv_loop_timeout, h1, usb_recv_loop_timeout,
      usb_recv_loop_zero]
    simp [ht']
  · rw [usb_recv, h2, usb_recv_loop_error]
  · rw [usb_send, h2, usb_send_loop_timeout _ _ _ _ hlen', Nat.sub_zero, h1,
      usb_send_loop_timeout _ _ _ _ hlen', usb_send_loop_zero]
    simp [hlen']
  · rw [usb_send, h2, usb_send_loop_error _ _ _ hlen']
  · rw [usb_send, h2, usb_send_loop_timeout _ _ _ _ hlen']
  · rw [usb_send, h2, usb_send_loop_ok _ _ _ _ hlen', h2]

/-- C4 amended witness: the policy at concrete attempt sequences. -/
theorem c4_amended_witness :
    (1 : Nat) ≤ 1 ∧ (1 : Nat) ≤ 3 ∧
    (usb_recv [.timeout 0, .timeout 0] = some (.error .ERR_TIMEOUT) ∧
    usb_recv [.timeout 1] = some (.ok 1) ∧
    usb_recv [.timeout 0, .timeout 1] = some (.ok 1) ∧
    usb_recv [.error] = some (.error .ERR) ∧
    usb_send 3 [.timeout 0, .timeout 0] = some (.error .ERR_TIMEOUT) ∧
    usb_send 3 [.error] = some (.error .ERR) ∧
    ((1 : Nat) < 3 → usb_send 3 [.timeout 1] =
      usb_send_loop (NUM_TIMEOUTS - 1) (3 - 1) []) ∧
    ((1 : Nat) < 3 → usb_send 3 [.ok 1] =
      usb_send_loop NUM_TIMEOUTS (3 - 1) [])) :=
  ⟨by decide, by decide,
    c4_amended_retry_policy [] 1 3 (by decide) (by decide)⟩

theorem length_listWrite (buf : List Nat) (pos : Nat) (data : List Nat)
    (h : pos + data.length ≤ buf.length) :
    (listWrite buf pos data).length = buf.length := by
  simp only [listWrite, List.length_append, List.length_take,
    List.length_drop]
  omega

theorem listWrite_take (buf : List Nat) (pos : Nat) (data : List Nat)
    (h : pos ≤ buf.length) :
    (listWrite buf pos data).take (pos + data.length) =
      buf.take pos ++ data := by
  have hl : (buf.take pos ++ data).length = pos + data.length := by
    simp only [List.length_append, List.length_take]
    omega
  rw [listWrite, ← hl, List.take_left]

/-- The stated write state for the witness of the completing-write claim:
1 byte still expected, 2 bytes already staged. -/
def wState : DevState :=
  { initState with write_length := 1, write_pos := 2 }

/-- C3: a transport_write call that completes the operation.  If the
scratch buffer is empty the bytes of the caller go out as one usb_send of
exactly those bytes.  Otherwise min(length, fill_bytes) caller bytes are
appended to the staged bytes (fill_bytes reaching the next CHUNK_SIZE
multiple), that block is the first usb_send, and the bytes beyond the
alignment point, if any, form a second separate usb_send; when the
bytes of the caller suffice to reach the alignment point, the length of
the first transfer is an exact multiple of CHUNK_SIZE.  In particular the
start_write(3); write([1,2]); write([3]) scenario issues no transfer on
the first write and exactly one usb_send of [1,2,3] on the second. -/
theorem c3_completing_write_flush (st : DevState) (data : List Nat)
    (hbuf : st.buffer.length = BUFFER_SIZE)
    (hwp : st.write_pos ≤ BUFFER_SIZE)
    (hc : data.length = st.write_length) :
    (st.write_pos = 0 →
      transport_write st data = .ok ({ st with write_length := 0 }, [data])) ∧
    (st.write_pos ≠ 0 →
      transport_write st data = .ok
        ({ st with
            buffer := listWrite st.buffer st.write_pos
              (data.take (min data.length (fillBytes st.write_pos)))
            write_length := 0
            write_pos := 0 },
          (st.buffer.take st.write_pos ++
            data.take (min data.length (fillBytes st.write_pos))) ::
            (if min data.length (fillBytes st.write_pos) < data.length
             then [data.drop (min data.length (fillBytes st.write_pos))]
             else []))) ∧
    (st.write_pos ≠ 0 → fillBytes st.write_pos ≤ data.length →
      (st.buffer.take st.write_pos ++
        data.take (min data.length (fillBytes st.write_pos))).length %
        CHUNK_SIZE = 0) ∧
    ((do
      let st0 ← transport_start_write initState 3
      let r1 ← transport_write st0 [1, 2]
      let r2 ← transport_write r1.1 [3]
      Except.ok (r1.2, r2.2)) =
        Except.ok (([] : List (List Nat)), [[1, 2, 3]])) := by
  have hnotgt : ¬(data.length > st.write_length) := by omega
  have hnotlt : ¬(data.length < st.write_length) := by omega
  refine ⟨?_, ?_, ?_, ?_⟩
  · intro h0
    simp only [transport_write, if_neg hnotgt, if_neg hnotlt, if_pos h0]
  · intro h0
    have htmp : min data.length (fillBytes st.write_pos) ≤ data.length :=
      Nat.min_le_left _ _
    have htake : (data.take (min data.length (fillBytes st.write_pos))).length
        = min data.length (fillBytes st.write_pos) := by
      simp only [List.length_take]
      omega
    simp only [transport_write, if_neg hnotgt, if_neg hnotlt, if_neg h0]
    have hfirst :
        (listWrite st.buffer st.write_pos
          (data.take (min data.length (fillBytes st.write_pos)))).take
            (st.write_pos + min data.length (fillBytes st.write_pos)) =
          st.buffer.take st.write_pos ++
            data.take (min data.length (fillBytes st.write_pos)) := by
      have := listWrite_take st.buffer st.write_pos
        (data.take (min data.length (fillBytes st.write_pos))) (by omega)
      rw [htake] at this
      exact this
    have hdrop : (data.drop (min data.length (fillBytes st.write_pos))).length
        = data.length - min data.length (fillBytes st.write_pos) := by
      simp
    rw [hfirst, hdrop]
    by_cases hlt : min data.length (fillBytes st.write_pos) < data.length
    · rw [if_neg (by omega), if_pos hlt]
    · rw [if_pos (by omega), if_neg hlt]
  · intro h0 hfill
    have hmin : min data.length (fillBytes st.write_pos) =
        fillBytes st.write_pos := Nat.min_eq_right hfill
    have hlen1 : (st.buffer.take st.write_pos).length = st.write_pos := by
      simp only [List.length_take]
      omega
    have hlen2 : (data.take (fillBytes st.write_pos)).length =
        fillBytes st.write_pos := by
      simp only [List.length_take]
      omega
    rw [hmin, List.length_append, hlen1, hlen2]
    have hCS : CHUNK_SIZE = 2048 := rfl
    simp only [fillBytes]
    by_cases h3 : st.write_pos % CHUNK_SIZE = 0
    · rw [if_neg (by simp [h3])]
      rw [hCS] at h3 ⊢
      omega
    · rw [if_pos h3]
      rw [hCS] at h3 ⊢
      omega
  · rfl

/-- C3 witness: the flush rule applied at a concrete completing call with
2 staged bytes and 1 final caller byte. -/
theorem c3_witness :
    wState.buffer.length = BUFFER_SIZE ∧ wState.write_pos ≤ BUFFER_SIZE ∧
    ([9] : List Nat).length = wState.write_length ∧
    ((wState.write_pos = 0 →
      transport_write wState [9] =
        .ok ({ wState with write_length := 0 }, [[9]])) ∧
    (wState.write_pos ≠ 0 →
      transport_write wState [9] = .ok
        ({ wState with
            buffer := listWrite wState.buffer wState.write_pos
              (([9] : List Nat).take
                (min ([9] : List Nat).length (fillBytes wState.write_pos)))
            write_length := 0
            write_pos := 0 },
          (wState.buffer.take wState.write_pos ++
            ([9] : List Nat).take
              (min ([9] : List Nat).length (fillBytes wState.write_pos))) ::
            (if min ([9] : List Nat).length (fillBytes wState.write_pos) <
                ([9] : List Nat).length
             then [([9] : List Nat).drop
               (min ([9] : List Nat).length (fillBytes wState.write_pos))]
             else []))) ∧
    (wState.write_pos ≠ 0 →
      fillBytes wState.write_pos ≤ ([9] : List Nat).length →
      (wState.buffer.take wState.write_pos ++
        ([9] : List Nat).take
          (min ([9] : List Nat).length (fillBytes wState.write_pos))).length %
        CHUNK_SIZE = 0) ∧
    ((do
      let st0 ← transport_start_write initState 3
      let r1 ← transport_write st0 [1, 2]
      let r2 ← transport_write r1.1 [3]
      Except.ok (r1.2, r2.2)) =
        Except.ok (([] : List (List Nat)), [[1, 2, 3]]))) :=
  ⟨by simp [wState, initState, BUFFER_SIZE], by decide, by decide,
    c3_completing_write_flush wState [9]
      (by simp [wState, initState, BUFFER_SIZE]) (by decide) (by decide)⟩

theorem fillBytes_add (pos : Nat) (h0 : pos ≠ 0) (h1 : pos ≤ BUFFER_SIZE) :
    pos + fillBytes pos = CHUNK_SIZE := by
  have hCS : CHUNK_SIZE = 2048 := rfl
  have hBS : BUFFER_SIZE = 2048 := rfl
  rw [hBS] at h1
  simp only [fillBytes]
  by_cases h3 : pos % CHUNK_SIZE = 0
  · rw [if_neg (by simp [h3])]
    rw [hCS] at h3 ⊢
    omega
  · rw [if_pos h3]
    rw [hCS] at h3 ⊢
    omega

/-- Well-formedness of the write-side framing state: a full-size scratch
buffer, staged bytes within capacity, and no staged bytes while no write
operation is pending. -/
def WInv (st : DevState) : Prop :=
  st.buffer.length = BUFFER_SIZE ∧ st.write_pos ≤ BUFFER_SIZE ∧
    (st.write_length = 0 → st.write_pos = 0)

theorem transport_write_step (st st' : DevState) (data : List Nat)
    (sends : List (List Nat)) (hInv : WInv st)
    (h : transport_write st data = .ok (st', sends)) :
    WInv st' ∧ sends.flatten ++ staged st' = staged st ++ data ∧
    st'.write_length = st.write_length - data.length ∧
    data.length ≤ st.write_length := by
  obtain ⟨hbuf, hwp, hzero⟩ := hInv
  by_cases h1 : data.length > st.write_length
  · simp [transport_write, h1] at h
  by_cases h2 : data.length < st.write_length
  · by_cases h3 : st.write_pos + data.length > BUFFER_SIZE
    · simp [transport_write, h1, h2, h3] at h
    · simp only [transport_write, if_neg h1, if_pos h2, if_neg h3,
        Except.ok.injEq, Prod.mk.injEq] at h
      obtain ⟨h4, h5⟩ := h
      subst h4
      subst h5
      refine ⟨⟨?_, ?_, ?_⟩, ?_, ?_, ?_⟩
      · exact (length_listWrite st.buffer st.write_pos data (by omega)).trans
          hbuf
      · show st.write_pos + data.length ≤ BUFFER_SIZE
        omega
      · show st.write_length - data.length = 0 → st.write_pos + data.length = 0
        omega
      · simp only [staged, List.flatten_nil, List.nil_append]
        exact listWrite_take st.buffer st.write_pos data (by omega)
      · rfl
      · omega
  · -- data.length = st.write_length: the completing call
    have heq : data.length = st.write_length := by omega
    by_cases h4 : st.write_pos = 0
    · simp only [transport_write, if_neg h1, if_neg h2, if_pos h4,
        Except.ok.injEq, Prod.mk.injEq] at h
      obtain ⟨h5, h6⟩ := h
      subst h5
      subst h6
      refine ⟨⟨hbuf, hwp, fun _ => h4⟩, ?_, by simp [heq], by omega⟩
      simp [staged, h4]
    · simp only [transport_write, if_neg h1, if_neg h2, if_neg h4,
        Except.ok.injEq, Prod.mk.injEq] at h
      obtain ⟨h5, h6⟩ := h
      subst h5
      subst h6
      have hfill : st.write_pos + fillBytes st.write_pos = CHUNK_SIZE :=
        fillBytes_add st.write_pos h4 hwp
      have htmp : min data.length (fillBytes st.write_pos) ≤ data.length :=
        Nat.min_le_left _ _
      have htake : (data.take (min data.length (fillBytes st.write_pos))).length
          = min data.length (fillBytes st.write_pos) := by
        simp only [List.length_take]
        omega
      have hBC : BUFFER_SIZE = CHUNK_SIZE := rfl
      refine ⟨⟨?_, by simp [BUFFER_SIZE], by simp⟩, ?_, by simp [heq],
        by omega⟩
      · refine (length_listWrite st.buffer st.write_pos
          (data.take (min data.length (fillBytes st.write_pos))) ?_).trans hbuf
        rw [htake]
        omega
      · have hfirst := listWrite_take st.buffer st.write_pos
          (data.take (min data.length (fillBytes st.write_pos))) (by omega)
        rw [htake] at hfirst
        simp only [staged, List.take_zero, List.append_nil]
        rw [hfirst]
        by_cases h7 :
            (data.drop (min data.length (fillBytes st.write_pos))).length = 0
        · rw [if_pos h7]
          have hta : data.take (min data.length (fillBytes st.write_pos)) =
              data := by
            apply List.take_of_length_le
            simp only [List.length_drop] at h7
            omega
          simp [hta]
        · rw [if_neg h7]
          simp only [List.flatten_cons, List.flatten_nil,
            List.append_nil, List.append_assoc, List.take_append_drop]

theorem runWrites_spec (ds : List (List Nat)) :
    ∀ (st stF : DevState) (sends : List (List Nat)), WInv st →
    runWrites st ds = .ok (stF, sends) →
    WInv stF ∧ sends.flatten ++ staged stF = staged st ++ ds.flatten ∧
    stF.write_length = st.write_length - (ds.map List.length).sum ∧
    (ds.map List.length).sum ≤ st.write_length := by
  induction ds with
  | nil =>
    intro st stF sends hInv h
    simp only [runWrites, Except.ok.injEq, Prod.mk.injEq] at h
    obtain ⟨h1, h2⟩ := h
    subst h1
    subst h2
    simp [hInv]
  | cons d ds ih =>
    intro st stF sends hInv h
    simp only [runWrites] at h
    split at h
    · cases h
    · rename_i st' s1 h1
      split at h
      · cases h
      · rename_i st'' s2 h2
        simp only [Except.ok.injEq, Prod.mk.injEq] at h
        obtain ⟨h3, h4⟩ := h
        subst h3
        subst h4
        obtain ⟨hInv', htrace', hlen', hle'⟩ :=
          transport_write_step st st' d s1 hInv h1
        obtain ⟨hInvF, htraceF, hlenF, hleF⟩ :=
          ih st' st'' s2 hInv' h2
        refine ⟨hInvF, ?_, by simp only [List.map_cons, List.sum_cons]; omega,
          by simp only [List.map_cons, List.sum_cons]; omega⟩
        simp only [List.flatten_cons, List.flatten_append, List.append_assoc]
        rw [htraceF, ← List.append_assoc, htrace', List.append_assoc]

/-- C1: content preservation of writes.  For every write operation of n
bytes started by transport_start_write and every sequence of
transport_write calls whose lengths sum to exactly n and in which every
buffering call stays within the scratch buffer (that is, the run
succeeds), the usb_send payloads concatenated in call order equal the
buffers of the callers concatenated in call order. -/
theorem c1_write_content_preservation (st st0 stF : DevState) (n : Nat)
    (ds sends : List (List Nat))
    (hbuf : st.buffer.length = BUFFER_SIZE)
    (hstart : transport_start_write st n = .ok st0)
    (hsum : (ds.map List.length).sum = n)
    (hrun : runWrites st0 ds = .ok (stF, sends)) :
    sends.flatten = ds.flatten := by
  have hn : ¬(n = 0) := by
    intro h
    simp [transport_start_write, h] at hstart
  simp only [transport_start_write, if_neg hn, Except.ok.injEq] at hstart
  subst hstart
  have hInv0 : WInv { st with write_length := n, write_pos := 0 } :=
    ⟨hbuf, by simp [BUFFER_SIZE], by simp [hn]⟩
  obtain ⟨hInvF, htrace, hlen, hle⟩ := runWrites_spec ds _ stF sends hInv0 hrun
  have hwl : stF.write_length = 0 := by
    simp only [] at hlen
    omega
  have hwp : stF.write_pos = 0 := hInvF.2.2 hwl
  simp only [staged, List.take_zero, hwp, List.append_nil] at htrace
  simpa using htrace

/-- C1 witness: the 3-byte operation written as 2 bytes then 1 byte sends
exactly the concatenation of the two buffers. -/
theorem c1_witness :
    ([[ (1 : Nat), 2, 3 ]] : List (List Nat)).flatten =
      ([[ (1 : Nat), 2 ], [ 3 ]] : List (List Nat)).flatten :=
  c1_write_content_preservation initState _ _ 3 [[1, 2], [3]] [[1, 2, 3]]
    (by simp [initState, BUFFER_SIZE]) rfl (by decide) rfl

theorem listWrite_zero (buf data : List Nat) :
    listWrite buf 0 data = data ++ buf.drop data.length := by
  simp [listWrite]

theorem read_loop_zero (st : DevState) (stream : List Nat)
    (results : List (Except JError Nat)) :
    read_loop st 0 stream results = some (.ok ([], st, stream, results)) := by
  rw [read_loop.eq_def]
  simp

theorem read_loop_step_small_over (st : DevState) (len c : Nat)
    (stream : List Nat) (rs : List (Except JError Nat))
    (hlen : len ≠ 0) (hcle : c ≤ st.read_length) (hsmall : len < CHUNK_SIZE)
    (hgt : c > len) :
    read_loop st len stream (.ok c :: rs) =
      some (.ok ((listWrite st.buffer 0 (stream.take c)).take len,
        { st with
          buffer := listWrite st.buffer 0 (stream.take c)
          bytes_available := c - len
          read_pos := len
          read_length := st.read_length - c },
        stream.drop c, rs)) := by
  rw [read_loop.eq_def]
  have hmin : min c len = len := by omega
  simp only [hlen, if_neg, ite_false, if_pos, reduceIte, hmin,
    Nat.sub_self, if_neg (by omega : ¬c > st.read_length), hsmall, hgt,
    ite_true, if_pos hsmall, if_pos hgt, read_loop_zero]
  simp [hlen]

theorem read_loop_step_small_under (st : DevState) (len c : Nat)
    (stream : List Nat) (rs : List (Except JError Nat))
    (hlen : len ≠ 0) (hcle : c ≤ st.read_length) (hsmall : len < CHUNK_SIZE)
    (hle : c ≤ len) :
    read_loop st len stream (.ok c :: rs) =
      match read_loop
          { st with
            buffer := listWrite st.buffer 0 (stream.take c)
            read_length := st.read_length - c }
          (len - c) (stream.drop c) rs with
      | some (.ok (out, stF, sF, rF)) =>
        some (.ok ((listWrite st.buffer 0 (stream.take c)).take c ++ out,
          stF, sF, rF))
      | other => other := by
  rw [read_loop.eq_def]
  have hmin : min c len = c := by omega
  simp only [hlen, hmin, if_neg (by omega : ¬c > st.read_length),
    if_pos hsmall, if_neg (by omega : ¬c > len), reduceIte]

theorem read_loop_step_big (st : DevState) (len c : Nat)
    (stream : List Nat) (rs : List (Except JError Nat))
    (hlen : len ≠ 0) (hcle : c ≤ st.read_length) (hbig : ¬len < CHUNK_SIZE) :
    read_loop st len stream (.ok c :: rs) =
      match read_loop { st with read_length := st.read_length - c }
          (len - c) (stream.drop c) rs with
      | some (.ok (out, stF, sF, rF)) =>
        some (.ok (stream.take c ++ out, stF, sF, rF))
      | other => other := by
  rw [read_loop.eq_def]
  simp only [hlen, if_neg (by omega : ¬c > st.read_length), if_neg hbig,
    reduceIte]

theorem read_loop_spec (counts : List Nat) :
    ∀ (st : DevState) (len : Nat) (stream : List Nat),
    (∀ c ∈ counts, 1 ≤ c ∧ c ≤ CHUNK_SIZE) →
    counts.sum = st.read_length →
    st.read_length ≤ stream.length →
    st.buffer.length = BUFFER_SIZE →
    st.bytes_available = 0 →
    st.read_pos ≤ BUFFER_SIZE →
    1 ≤ len → len ≤ st.read_length →
    ∃ (k : Nat) (out : List Nat) (stF : DevState),
      read_loop st len stream (counts.map Except.ok) =
        some (.ok (out, stF, stream.drop ((counts.take k).sum),
          (counts.drop k).map Except.ok)) ∧
      out.length = len ∧
      out ++ bufSlice stF = stream.take ((counts.take k).sum) ∧
      stF.read_length = st.read_length - (counts.take k).sum ∧
      stF.bytes_available = (counts.take k).sum - len ∧
      len ≤ (counts.take k).sum ∧
      (counts.take k).sum ≤ st.read_length ∧
      stF.buffer.length = BUFFER_SIZE ∧
      stF.read_pos + stF.bytes_available ≤ BUFFER_SIZE := by
  induction counts with
  | nil =>
    intro st len stream hgood hsum hstream hbuf havail hrp hlen1 hlen2
    exfalso
    simp only [List.sum_nil] at hsum
    omega
  | cons c cs ih =>
    intro st len stream hgood hsum hstream hbuf havail hrp hlen1 hlen2
    obtain ⟨hc1, hc2⟩ := hgood c (List.mem_cons_self c cs)
    simp only [List.sum_cons] at hsum
    have hcle : c ≤ st.read_length := by omega
    have hBC : BUFFER_SIZE = CHUNK_SIZE := rfl
    have hk1 : ((c :: cs).take 1).sum = c := by simp
    have hd1 : (c :: cs).drop 1 = cs := by simp
    have hrecvlen : (stream.take c).length = c := by
      simp only [List.length_take]
      omega
    have hbuflen : (listWrite st.buffer 0 (stream.take c)).length =
        BUFFER_SIZE := by
      refine (length_listWrite st.buffer 0 (stream.take c) ?_).trans hbuf
      rw [hrecvlen]
      omega
    have hlen0 : len ≠ 0 := by omega
    simp only [List.map_cons]
    by_cases hsmall : len < CHUNK_SIZE
    · by_cases hgt : c > len
      · -- one receive over-covers the request; surplus is buffered
        rw [read_loop_step_small_over st len c stream (cs.map Except.ok)
          hlen0 hcle hsmall hgt]
        refine ⟨1, (listWrite st.buffer 0 (stream.take c)).take len,
          { st with
            buffer := listWrite st.buffer 0 (stream.take c)
            bytes_available := c - len
            read_pos := len
            read_length := st.read_length - c },
          ?_, ?_, ?_, ?_, ?_, ?_, ?_, ?_, ?_⟩
        · rw [hk1, hd1]
        · simp only [List.length_take, hbuflen]
          omega
        · rw [hk1]
          have h1 : (listWrite st.buffer 0 (stream.take c)).take len =
              stream.take len := by
            rw [listWrite_zero, List.take_append_of_le_length (by omega),
              List.take_take, Nat.min_eq_left (by omega)]
          have h2 : ((listWrite st.buffer 0 (stream.take c)).drop len).take
              (c - len) = (stream.take c).drop len := by
            rw [listWrite_zero, List.drop_append_of_le_length (by omega)]
            have hdl : ((stream.take c).drop len).length = c - len := by
              simp only [List.length_drop, hrecvlen]
            rw [List.take_append_of_le_length (by omega),
              List.take_of_length_le (by omega)]
          show (listWrite st.buffer 0 (stream.take c)).take len ++
              ((listWrite st.buffer 0 (stream.take c)).drop len).take
                (c - len) = stream.take c
          rw [h1, h2, show stream.take len = (stream.take c).take len by
            rw [List.take_take, Nat.min_eq_left (by omega)]]
          exact List.take_append_drop len (stream.take c)
        · rw [hk1]
        · rw [hk1]
        · rw [hk1]
          omega
        · rw [hk1]
          omega
        · exact hbuflen
        · show len + (c - len) ≤ BUFFER_SIZE
          omega
      · -- the receive is fully consumed by the request
        push_neg at hgt
        rw [read_loop_step_small_under st len c stream (cs.map Except.ok)
          hlen0 hcle hsmall hgt]
        have htakec : (listWrite st.buffer 0 (stream.take c)).take c =
            stream.take c := by
          rw [listWrite_zero, List.take_append_of_le_length (by omega),
            List.take_of_length_le (by omega)]
        by_cases heqc : len = c
        · -- the request is exactly satisfied: the loop exits
          rw [show len - c = 0 by omega, read_loop_zero]
          refine ⟨1, (listWrite st.buffer 0 (stream.take c)).take c ++ [],
            { st with
              buffer := listWrite st.buffer 0 (stream.take c)
              read_length := st.read_length - c },
            ?_, ?_, ?_, ?_, ?_, ?_, ?_, ?_, ?_⟩
          · rw [hk1, hd1]
          · simp only [List.append_nil, List.length_take, hbuflen]
            omega
          · rw [hk1]
            simp only [List.append_nil, bufSlice, havail, List.take_zero]
            rw [htakec]
          · rw [hk1]
          · rw [hk1, havail]
            omega
          · rw [hk1]
            omega
          · rw [hk1]
            omega
          · exact hbuflen
          · show st.read_pos + st.bytes_available ≤ BUFFER_SIZE
            omega
        · -- more receives are needed for this request
          have hlt : c < len := by omega
          obtain ⟨k, out, stF, hrl, hol, htr, hrlF, hav, hlk, hks, hbF,
            hrpF⟩ := ih
            { st with
              buffer := listWrite st.buffer 0 (stream.take c)
              read_length := st.read_length - c }
            (len - c) (stream.drop c)
            (fun x hx => hgood x (List.mem_cons_of_mem c hx))
            (by show cs.sum = st.read_length - c; omega)
            (by simp only [List.length_drop]; show _ - _ ≤ _; omega)
            hbuflen havail hrp (by omega)
            (by show len - c ≤ st.read_length - c; omega)
          rw [hrl]
          refine ⟨k + 1,
            (listWrite st.buffer 0 (stream.take c)).take c ++ out, stF,
            ?_, ?_, ?_, ?_, ?_, ?_, ?_, hbF, hrpF⟩
          · simp only [List.take_succ_cons, List.sum_cons,
              List.drop_succ_cons, List.drop_drop]
          · simp only [List.length_append, List.length_take, hbuflen, hol]
            omega
          · simp only [List.take_succ_cons, List.sum_cons,
              List.append_assoc]
            rw [htakec, htr]
            exact (List.take_add stream c ((cs.take k).sum)).symm
          · simp only [List.take_succ_cons, List.sum_cons, hrlF]
            show st.read_length - c - (cs.take k).sum = _
            omega
          · simp only [List.take_succ_cons, List.sum_cons, hav]
            omega
          · simp only [List.take_succ_cons, List.sum_cons]
            omega
          · simp only [List.take_succ_cons, List.sum_cons]
            show c + (cs.take k).sum ≤ st.read_length
            have : (cs.take k).sum ≤ st.read_length - c := hks
            omega
    · -- the request is at least a chunk: receive into the buffer of the caller
      rw [read_loop_step_big st len c stream (cs.map Except.ok)
        hlen0 hcle hsmall]
      by_cases heqc : len - c = 0
      · -- only possible when c = len = CHUNK_SIZE
        have hce : c = len := by omega
        rw [heqc, read_loop_zero]
        refine ⟨1, stream.take c ++ [], { st with
            read_length := st.read_length - c },
          ?_, ?_, ?_, ?_, ?_, ?_, ?_, ?_, ?_⟩
        · rw [hk1, hd1]
        · simp only [List.append_nil, hrecvlen]
          omega
        · rw [hk1]
          simp only [List.append_nil, bufSlice, havail, List.take_zero,
            List.append_nil]
        · rw [hk1]
        · rw [hk1, havail]
          omega
        · rw [hk1]
          omega
        · rw [hk1]
          omega
        · exact hbuf
        · show st.read_pos + st.bytes_available ≤ BUFFER_SIZE
          omega
      · obtain ⟨k, out, stF, hrl, hol, htr, hrlF, hav, hlk, hks, hbF,
          hrpF⟩ := ih
          { st with read_length := st.read_length - c }
          (len - c) (stream.drop c)
          (fun x hx => hgood x (List.mem_cons_of_mem c hx))
          (by show cs.sum = st.read_length - c; omega)
          (by simp only [List.length_drop]; show _ - _ ≤ _; omega)
          hbuf havail hrp (by omega)
          (by show len - c ≤ st.read_length - c; omega)
        rw [hrl]
        refine ⟨k + 1, stream.take c ++ out, stF,
          ?_, ?_, ?_, ?_, ?_, ?_, ?_, hbF, hrpF⟩
        · simp only [List.take_succ_cons, List.sum_cons,
            List.drop_succ_cons, List.drop_drop]
        · simp only [List.length_append, hrecvlen, hol]
          omega
        · simp only [List.take_succ_cons, List.sum_cons, List.append_assoc]
          rw [htr]
          exact (List.take_add stream c ((cs.take k).sum)).symm
        · simp only [List.take_succ_cons, List.sum_cons, hrlF]
          show st.read_length - c - (cs.take k).sum = _
          omega
        · simp only [List.take_succ_cons, List.sum_cons, hav]
          omega
        · simp only [List.take_succ_cons, List.sum_cons]
          omega
        · simp only [List.take_succ_cons, List.sum_cons]
          show c + (cs.take k).sum ≤ st.read_length
          have : (cs.take k).sum ≤ st.read_length - c := hks
          omega

theorem transport_read_spec (st : DevState) (len : Nat) (stream : List Nat)
    (counts : List Nat)
    (hbuf : st.buffer.length = BUFFER_SIZE)
    (hrpav : st.read_pos + st.bytes_available ≤ BUFFER_SIZE)
    (hgood : ∀ c ∈ counts, 1 ≤ c ∧ c ≤ CHUNK_SIZE)
    (hsum : counts.sum = st.read_length)
    (hstream : st.read_length ≤ stream.length)
    (hlen : len ≤ st.read_length + st.bytes_available) :
    ∃ (k : Nat) (out : List Nat) (stF : DevState),
      transport_read st len stream (counts.map Except.ok) =
        some (.ok (out, stF, stream.drop ((counts.take k).sum),
          (counts.drop k).map Except.ok)) ∧
      out.length = len ∧
      out ++ bufSlice stF =
        bufSlice st ++ stream.take ((counts.take k).sum) ∧
      stF.read_length = st.read_length - (counts.take k).sum ∧
      stF.bytes_available = st.bytes_available + (counts.take k).sum - len ∧
      (counts.take k).sum ≤ st.read_length ∧
      len ≤ st.bytes_available + (counts.take k).sum ∧
      stF.buffer.length = BUFFER_SIZE ∧
      stF.read_pos + stF.bytes_available ≤ BUFFER_SIZE := by
  have hnotgt : ¬(len > st.read_length + st.bytes_available) := by omega
  by_cases hserved : len ≤ st.bytes_available
  · -- served entirely from the buffer: no receive, k = 0
    refine ⟨0, (st.buffer.drop st.read_pos).take len,
      { st with
        bytes_available := st.bytes_available - len
        read_pos := st.read_pos + len },
      ?_, ?_, ?_, ?_, ?_, ?_, ?_, hbuf, ?_⟩
    · simp only [transport_read, if_neg hnotgt, if_pos hserved,
        List.take_zero, List.sum_nil, List.drop_zero]
    · simp only [List.length_take, List.length_drop, hbuf]
      omega
    · simp only [List.take_zero, List.sum_nil, List.take_zero,
        List.append_nil, bufSlice]
      have hdd : (st.buffer.drop st.read_pos).drop len =
          st.buffer.drop (st.read_pos + len) :=
        List.drop_drop len st.read_pos st.buffer
      show (st.buffer.drop st.read_pos).take len ++
          (st.buffer.drop (st.read_pos + len)).take
            (st.bytes_available - len) =
        (st.buffer.drop st.read_pos).take st.bytes_available
      rw [← hdd, ← List.take_add,
        show len + (st.bytes_available - len) = st.bytes_available by omega]
    · simp
    · simp only [List.take_zero, List.sum_nil]
      show st.bytes_available - len = st.bytes_available + 0 - len
      omega
    · simp
    · simp only [List.take_zero, List.sum_nil]
      omega
    · show st.read_pos + len + (st.bytes_available - len) ≤ BUFFER_SIZE
      omega
  · -- drain the buffer, then the receive loop
    push_neg at hserved
    by_cases hav0 : st.bytes_available ≠ 0
    · obtain ⟨k, out2, stF, hrl, hol, htr, hrlF, hav, hlk, hks, hbF, hrpF⟩ :=
        read_loop_spec counts
          { st with bytes_available := 0, read_pos := 0 }
          (len - st.bytes_available) stream hgood hsum hstream hbuf rfl
          (by show 0 ≤ BUFFER_SIZE; omega) (by omega)
          (by show len - st.bytes_available ≤ st.read_length; omega)
      refine ⟨k, (st.buffer.drop st.read_pos).take st.bytes_available ++ out2,
        stF, ?_, ?_, ?_, hrlF, ?_, hks, ?_, hbF, hrpF⟩
      · simp only [transport_read, if_neg hnotgt,
          if_neg (by omega : ¬len ≤ st.bytes_available), if_pos hav0, hrl]
      · simp only [List.length_append, List.length_take, List.length_drop,
          hbuf, hol]
        omega
      · show ((st.buffer.drop st.read_pos).take st.bytes_available ++ out2) ++
            bufSlice stF = bufSlice st ++ stream.take ((counts.take k).sum)
        rw [List.append_assoc, htr]
        rfl
      · show stF.bytes_available =
          st.bytes_available + (counts.take k).sum - len
        omega
      · omega
    · push_neg at hav0
      obtain ⟨k, out2, stF, hrl, hol, htr, hrlF, hav, hlk, hks, hbF, hrpF⟩ :=
        read_loop_spec counts st (len - st.bytes_available) stream
          hgood hsum hstream hbuf hav0 (by omega) (by omega)
          (by show len - st.bytes_available ≤ st.read_length; omega)
      refine ⟨k, (st.buffer.drop st.read_pos).take st.bytes_available ++ out2,
        stF, ?_, ?_, ?_, hrlF, ?_, hks, ?_, hbF, hrpF⟩
      · simp only [transport_read, if_neg hnotgt,
          if_neg (by omega : ¬len ≤ st.bytes_available),
          if_neg (by omega : ¬st.bytes_available ≠ 0), hrl]
      · simp only [List.length_append, List.length_take, List.length_drop,
          hbuf, hol]
        omega
      · show ((st.buffer.drop st.read_pos).take st.bytes_available ++ out2) ++
            bufSlice stF = bufSlice st ++ stream.take ((counts.take k).sum)
        rw [List.append_assoc, htr]
        simp only [bufSlice, hav0, List.take_zero, List.nil_append]
      · show stF.bytes_available =
          st.bytes_available + (counts.take k).sum - len
        omega
      · omega

theorem runReads_spec (lens : List Nat) :
    ∀ (st : DevState) (stream counts : List Nat),
    st.buffer.length = BUFFER_SIZE →
    st.read_pos + st.bytes_available ≤ BUFFER_SIZE →
    (∀ c ∈ counts, 1 ≤ c ∧ c ≤ CHUNK_SIZE) →
    counts.sum = st.read_length →
    st.read_length ≤ stream.length →
    lens.sum ≤ st.read_length + st.bytes_available →
    ∃ (K : Nat) (outs : List (List Nat)) (stF : DevState),
      runReads st lens stream (counts.map Except.ok) =
        some (.ok (outs, stF, stream.drop ((counts.take K).sum),
          (counts.drop K).map Except.ok)) ∧
      outs.flatten.length = lens.sum ∧
      outs.flatten ++ bufSlice stF =
        bufSlice st ++ stream.take ((counts.take K).sum) ∧
      stF.read_length = st.read_length - (counts.take K).sum ∧
      stF.bytes_available =
        st.bytes_available + (counts.take K).sum - lens.sum ∧
      (counts.take K).sum ≤ st.read_length ∧
      lens.sum ≤ st.bytes_available + (counts.take K).sum ∧
      stF.buffer.length = BUFFER_SIZE ∧
      stF.read_pos + stF.bytes_available ≤ BUFFER_SIZE := by
  induction lens with
  | nil =>
    intro st stream counts hbuf hrpav hgood hsum hstream hlens
    refine ⟨0, [], st, ?_, by simp, by simp, by simp, by simp, by simp,
      by simp, hbuf, hrpav⟩
    simp only [runReads, List.take_zero, List.sum_nil, List.drop_zero]
  | cons len lens ih =>
    intro st stream counts hbuf hrpav hgood hsum hstream hlens
    simp only [List.sum_cons] at hlens
    obtain ⟨k, out, st', h1, hol, htr, hrl', hav', hmrl, hlenm, hb', hrp'⟩ :=
      transport_read_spec st len stream counts hbuf hrpav hgood hsum hstream
        (by omega)
    have hsumtd := List.sum_take_add_sum_drop counts k
    obtain ⟨K2, outs2, stF, h2, hfl2, htr2, hrlF, havF, hmrl2, hlm2, hbF,
      hrpF⟩ :=
      ih st' (stream.drop ((counts.take k).sum)) (counts.drop k) hb' hrp'
        (fun x hx => hgood x (List.mem_of_mem_drop hx))
        (by omega)
        (by simp only [List.length_drop]; omega)
        (by omega)
    have hTake : (counts.take (k + K2)).sum =
        (counts.take k).sum + ((counts.drop k).take K2).sum := by
      rw [List.take_add]
      simp
    refine ⟨k + K2, out :: outs2, stF, ?_, ?_, ?_, ?_, ?_, ?_, ?_, hbF, hrpF⟩
    · simp only [runReads, h1, h2, List.drop_drop, hTake]
    · simp only [List.flatten_cons, List.length_append, hol, hfl2,
        List.sum_cons]
    · simp only [List.flatten_cons, List.append_assoc]
      rw [htr2, ← List.append_assoc, htr, List.append_assoc, hTake,
        List.take_add]
    · rw [hTake]
      omega
    · rw [hTake]
      simp only [List.sum_cons]
      omega
    · rw [hTake]
      omega
    · rw [hTake]
      simp only [List.sum_cons]
      omega

/-- C2: split invariance of reads.  For every read operation of n bytes
started by transport_start_read, every way of splitting n into a sequence
of transport_read call lengths, and every fixed backend stream delivered
by successful chunk receives (each receive nonempty, at most CHUNK_SIZE,
together producing exactly the n bytes), the bytes delivered to the
callers, concatenated in call order, are exactly the first n bytes of the
backend stream — independent of the split. -/
theorem c2_read_split_invariance (st st0 : DevState) (n : Nat)
    (lens counts stream : List Nat)
    (hbuf : st.buffer.length = BUFFER_SIZE)
    (hstart : transport_start_read st n = .ok st0)
    (hlens : lens.sum = n)
    (hgood : ∀ c ∈ counts, 1 ≤ c ∧ c ≤ CHUNK_SIZE)
    (hcsum : counts.sum = n)
    (hstream : n ≤ stream.length) :
    ∃ (outs : List (List Nat)) (stF : DevState),
      runReads st0 lens stream (counts.map Except.ok) =
        some (.ok (outs, stF, stream.drop n, [])) ∧
      outs.flatten = stream.take n := by
  have hn : ¬(n = 0) := by
    intro h
    simp [transport_start_read, h] at hstart
  simp only [transport_start_read, if_neg hn, Except.ok.injEq] at hstart
  subst hstart
  obtain ⟨K, outs, stF, hrun, hfl, htr, hrlF, havF, hmrl, hlm, hbF, hrpF⟩ :=
    runReads_spec lens
      { st with read_length := n, bytes_available := 0, read_pos := 0 }
      stream counts hbuf (by show 0 + 0 ≤ BUFFER_SIZE; omega) hgood
      (by simpa using hcsum) (by simpa using hstream)
      (by show lens.sum ≤ n + 0; omega)
  have hsumtd := List.sum_take_add_sum_drop counts K
  have hm : (counts.take K).sum = n := by
    simp only [] at hlm hmrl
    omega
  have hdrops : (counts.drop K).sum = 0 := by omega
  have hnil : counts.drop K = [] := by
    cases hdk : counts.drop K with
    | nil => rfl
    | cons a l =>
      exfalso
      have ha := hgood a (List.mem_of_mem_drop
        (hdk ▸ List.mem_cons_self a l))
      rw [hdk] at hdrops
      simp only [List.sum_cons] at hdrops
      omega
  have havF0 : stF.bytes_available = 0 := by
    simp only [] at havF
    omega
  rw [hm, hnil] at hrun
  refine ⟨outs, stF, by simpa using hrun, ?_⟩
  rw [hm] at htr
  simp only [bufSlice, havF0, List.take_zero, List.append_nil,
    List.nil_append] at htr
  exact htr

/-- C2 witness: a 6-byte read split as 2 + 4 against a backend that hands
all 6 bytes to the first physical receive delivers the first 6 stream
bytes. -/
theorem c2_witness :
    ∃ (outs : List (List Nat)) (stF : DevState),
      runReads
          { initState with
            read_length := 6
            bytes_available := 0
            read_pos := 0 }
          [2, 4] [10, 11, 12, 13, 14, 15, 16, 17]
          (([6] : List Nat).map Except.ok) =
        some (.ok (outs, stF,
          ([10, 11, 12, 13, 14, 15, 16, 17] : List Nat).drop 6, [])) ∧
      outs.flatten = ([10, 11, 12, 13, 14, 15, 16, 17] : List Nat).take 6 :=
  c2_read_split_invariance initState
    { initState with read_length := 6, bytes_available := 0, read_pos := 0 }
    6 [2, 4] [6] [10, 11, 12, 13, 14, 15, 16, 17]
    (by simp [initState, BUFFER_SIZE]) rfl (by decide) (by decide)
    (by decide) (by decide)

end Jaylink
